import Mathlib

/-!
Verification of the dependency checker (src/main.py).

The file embeds the programs logic shallowly in Lean:
pure Python functions become Lean functions, the per-dependency loop of
main becomes a fold over a list of (name, specifier) pairs, and network
calls become an explicit fetch-result value passed in.
-/

namespace DepCheck

/- ===== Version model =====
Modelled from the spec: the comparison of version strings is performed by
an external versioning library, not by code in this repository.  The spec
(section 4.2 and the Version entry of the data model) describes the
canonical form: an ordered tuple of numeric release segments plus an
optional pre-release segment, with a tolerated single leading letter
prefix, pre-release sorting before the corresponding release, and
trailing zero segments ignored for equality.  The definitions below
implement exactly that grammar and ordering. -/

/-- Numeric value of a digit run. -/
def natOfDigits (l : List Char) : Nat :=
  l.foldl (fun n c => n * 10 + (c.toNat - 48)) 0

/-- Parse `digits (. digits)*`, backtracking when a dot is followed by a
non-digit (the dot then belongs to the pre-release suffix).  Fuel-indexed
for easy termination; fuel is always sufficient at `length + 1`. -/
def parseSegsF : Nat → List Char → Option (List Nat × List Char)
  | 0, _ => none
  | fuel + 1, l =>
    let d := l.takeWhile Char.isDigit
    let r := l.dropWhile Char.isDigit
    if d.isEmpty then none
    else
      match r with
      | '.' :: r2 =>
        match parseSegsF fuel r2 with
        | some (segs, rest) => some (natOfDigits d :: segs, rest)
        | none => some ([natOfDigits d], r)
      | _ => some ([natOfDigits d], r)

/-- Pre-release separator characters. -/
def isSep (c : Char) : Bool := c = '-' || c = '_' || c = '.'

/-- Recognize a pre-release phase word (input already lowercased); returns
the normalized phase (0 = alpha, 1 = beta, 2 = release candidate) and the
remaining characters. -/
def matchPhaseWord (l : List Char) : Option (Nat × List Char) :=
  if "alpha".data.isPrefixOf l then some (0, l.drop 5)
  else if "beta".data.isPrefixOf l then some (1, l.drop 4)
  else if "preview".data.isPrefixOf l then some (2, l.drop 7)
  else if "pre".data.isPrefixOf l then some (2, l.drop 3)
  else if "rc".data.isPrefixOf l then some (2, l.drop 2)
  else if "a".data.isPrefixOf l then some (0, l.drop 1)
  else if "b".data.isPrefixOf l then some (1, l.drop 1)
  else if "c".data.isPrefixOf l then some (2, l.drop 1)
  else none

/-- Parse the optional pre-release suffix; the whole remainder must be
consumed.  A missing number defaults to 0. -/
def parsePreSuffix (l : List Char) : Option (Option (Nat × Nat)) :=
  match l with
  | [] => some none
  | _ =>
    let l1 := match l with
      | c :: r => if isSep c then r else l
      | [] => l
    match matchPhaseWord l1 with
    | none => none
    | some (phase, r2) =>
      let r3 := match r2 with
        | c :: r => if isSep c then r else r2
        | [] => []
      let dg := r3.takeWhile Char.isDigit
      let r4 := r3.dropWhile Char.isDigit
      if r4.isEmpty then some (some (phase, natOfDigits dg)) else none

/-- Canonical parsed version: numeric release segments and an optional
pre-release (phase, number). -/
structure PV where
  release : List Nat
  pre : Option (Nat × Nat)
deriving DecidableEq

/-- Parse a version string (as characters): optional whitespace, an
optional single letter `v` prefix, release segments, optional pre-release
suffix.  Case-insensitive. -/
def parseVersionChars (l0 : List Char) : Option PV :=
  let l1 := l0.map Char.toLower
  let l2 := l1.dropWhile Char.isWhitespace
  let l3 := (l2.reverse.dropWhile Char.isWhitespace).reverse
  let l4 := match l3 with
    | 'v' :: r => r
    | _ => l3
  match parseSegsF (l4.length + 1) l4 with
  | none => none
  | some (segs, rest) =>
    match parsePreSuffix rest with
    | some pre => some ⟨segs, pre⟩
    | none => none

def parseVersion (s : String) : Option PV := parseVersionChars s.data

/- ===== Ordering on parsed versions ===== -/

/-- Three-way comparison of naturals. -/
def cmpNat (a b : Nat) : Ordering :=
  if a < b then .lt else if b < a then .gt else .eq

/-- Lexicographic comparison of release-segment lists; a strict prefix
sorts first. -/
def cmpList : List Nat → List Nat → Ordering
  | [], [] => .eq
  | [], _ :: _ => .lt
  | _ :: _, [] => .gt
  | a :: as, b :: bs => (cmpNat a b).then (cmpList as bs)

/-- Compare optional pre-release segments: a pre-release sorts before the
corresponding plain release; two pre-releases compare by phase then
number. -/
def cmpPre : Option (Nat × Nat) → Option (Nat × Nat) → Ordering
  | none, none => .eq
  | none, some _ => .gt
  | some _, none => .lt
  | some (p1, n1), some (p2, n2) => (cmpNat p1 p2).then (cmpNat n1 n2)

/-- Drop trailing zero release segments, so that surface differences such
as trailing `.0` segments do not affect comparison. -/
def stripZeros (l : List Nat) : List Nat :=
  (l.reverse.dropWhile (fun n => n = 0)).reverse

/-- Three-way comparison of parsed versions. -/
def cmpPV (a b : PV) : Ordering :=
  (cmpList (stripZeros a.release) (stripZeros b.release)).then
    (cmpPre a.pre b.pre)

/- ===== The cleaning step of main (src/main.py lines 173-180) ===== -/

/-- Embeds the call `current_str.lstrip(chr(118))` in main: remove every
leading letter v. -/
def lstripV (s : String) : String :=
  String.mk (s.data.dropWhile (fun c => c = 'v'))

/-- Parse a version string the way main does: strip leading letters v,
then parse. -/
def cleanParse (s : String) : Option PV := parseVersion (lstripV s)

/-- The composed comparator used by main: clean and parse both sides; if
either side fails the pair is skipped (result none). -/
def compareVersions (a b : String) : Option Ordering :=
  match cleanParse a, cleanParse b with
  | some p, some q => some (cmpPV p q)
  | _, _ => none

/- ===== Classification (src/main.py lines 157-193) ===== -/

/-- One row of the outdated table: (name, spec, latest, license,
environment requirement), as appended at line 183 of main. -/
structure Row where
  name : String
  spec : String
  latest : String
  license : String
  envReq : String
deriving DecidableEq

/-- Outcome of the comparison step for one dependency. -/
inductive Outcome
  | skipped
  | outdated (row : Row)
  | ahead (warning : String)
  | upToDate
deriving DecidableEq

/-- The warning line built at line 185 of main. -/
def warningMsg (name current latest : String) : String :=
  "WARNING: " ++ name ++ " specified version " ++ current ++
    " is NEWER than latest " ++ latest ++ "!"

/-- Embeds lines 173-185 of main: clean and parse both version strings
(on failure the dependency is skipped), then compare: registry latest
strictly newer gives an outdated row, manifest version strictly newer
gives a warning, equality gives neither. -/
def classify (name spec current latest license envReq : String) : Outcome :=
  match cleanParse current, cleanParse latest with
  | some cv, some lv =>
    match cmpPV lv cv with
    | .gt => .outdated ⟨name, spec, latest, license, envReq⟩
    | .lt => .ahead (warningMsg name current latest)
    | .eq => .upToDate
  | _, _ => .skipped

/-- Table rows contributed by one outcome. -/
def outcomeRows : Outcome → List Row
  | .outdated r => [r]
  | _ => []

/-- Warning lines contributed by one outcome. -/
def outcomeWarnings : Outcome → List String
  | .ahead w => [w]
  | _ => []

/-- Result tuple of check_pypi_updates / check_npm_updates: a 5-tuple
(current, latest, license, environment requirement, error). -/
structure FetchRes where
  current : Option String
  latest : Option String
  license : Option String
  envReq : Option String
  err : Option String
deriving DecidableEq

/-- Python truthiness of an optional string: present and non-empty. -/
def truthy : Option String → Bool
  | none => false
  | some s => !s.isEmpty

/-- Accumulated output of the loop in main: the error-stream lines
(written to stderr at line 167), the outdated table rows, and the
warning lines (both later written to stdout). -/
structure RunAcc where
  errors : List String
  outdated : List Row
  warnings : List String
deriving DecidableEq

/-- The stderr line printed at line 167 of main. -/
def errorMsg (name err : String) : String :=
  "ERROR: could not fetch " ++ name ++ ": " ++ err

/-- Embeds one iteration of the loop at lines 160-185 of main, with the
per-dependency check result supplied by `fetch`: a truthy error prints
to stderr and continues; a missing current or latest version continues;
otherwise the comparison outcome contributes its rows and warnings. -/
def stepDep (fetch : String → String → FetchRes) (acc : RunAcc)
    (d : String × String) : RunAcc :=
  let r := fetch d.1 d.2
  if truthy r.err then
    { acc with errors := acc.errors ++ [errorMsg d.1 (r.err.getD "")] }
  else if !truthy r.current || !truthy r.latest then acc
  else
    let o := classify d.1 d.2 (r.current.getD "") (r.latest.getD "")
      (r.license.getD "") (r.envReq.getD "")
    { acc with outdated := acc.outdated ++ outcomeRows o,
               warnings := acc.warnings ++ outcomeWarnings o }

/-- The whole loop of main over the dependency list. -/
def runDeps (fetch : String → String → FetchRes)
    (deps : List (String × String)) : RunAcc :=
  deps.foldl (stepDep fetch) ⟨[], [], []⟩

/- ===== PyPI backend (src/main.py lines 54-113) ===== -/

/-- The info object of a PyPI registry document, restricted to the
fields the program reads. -/
structure PyInfo where
  version : String
  classifiers : List String
  license : Option String
  requires_python : Option String
deriving DecidableEq

/-- The prefix test used on classifier strings (str.startswith). -/
def strStartsWith (s p : String) : Bool := p.data.isPrefixOf s.data

/-- Remove leading and trailing whitespace (str.strip). -/
def trimChars (l : List Char) : List Char :=
  ((l.dropWhile Char.isWhitespace).reverse.dropWhile Char.isWhitespace).reverse

/-- Split on a non-empty separator (str.split with an argument),
fuel-indexed; fuel is always sufficient at `length + 1`. -/
def splitSepF (sep : List Char) : Nat → List Char → List (List Char)
  | 0, l => [l]
  | fuel + 1, l =>
    match l with
    | [] => [[]]
    | c :: rest =>
      if sep.isPrefixOf (c :: rest) then
        [] :: splitSepF sep fuel ((c :: rest).drop sep.length)
      else
        match splitSepF sep fuel rest with
        | [] => [[c]]
        | chunk :: chunks => (c :: chunk) :: chunks

def splitSep (sep l : List Char) : List (List Char) :=
  splitSepF sep (l.length + 1) l

/-- Embeds extract_license (lines 54-62): keep classifiers starting with
the license category marker, join with a semicolon; otherwise the plain
license field if truthy; otherwise Unknown. -/
def extract_license (info : PyInfo) : String :=
  let cls := info.classifiers.filter (fun c => strStartsWith c "License ::")
  if !cls.isEmpty then String.intercalate "; " cls
  else
    match info.license with
    | some s => if s.isEmpty then "Unknown" else s
    | none => "Unknown"

/-- Embeds lines 73-84 of extract_python_requires: from the classifiers
starting with the Python language marker, take the last `::`-separated
part, stripped of whitespace, when it is non-empty and contains a
digit. -/
def pyVersionsFromClassifiers (classifiers : List String) : List String :=
  (classifiers.filter
    (fun c => strStartsWith c "Programming Language :: Python ::")).filterMap
    (fun c =>
      let parts := (splitSep "::".data c.data).map trimChars
      match parts.getLast? with
      | some last => if !last.isEmpty && last.any Char.isDigit
                     then some (String.mk last) else none
      | none => none)

/-- Code-point comparison of character lists, less-or-equal; this is the
string order Python sorted uses. -/
def listLe : List Char → List Char → Bool
  | [], _ => true
  | _ :: _, [] => false
  | a :: as, b :: bs =>
    if a.toNat = b.toNat then listLe as bs else decide (a.toNat < b.toNat)

def strLe (a b : String) : Bool := listLe a.data b.data

/-- Insert into a sorted list of strings. -/
def insertLe (x : String) : List String → List String
  | [] => [x]
  | y :: ys => if strLe x y then x :: y :: ys else y :: insertLe x ys

/-- Insertion sort in the code-point string order. -/
def sortLe : List String → List String
  | [] => []
  | x :: xs => insertLe x (sortLe xs)

/-- Embeds sorted(set(versions)): the ascending enumeration of the
distinct elements. -/
def sortedDedup (l : List String) : List String :=
  sortLe l.dedup

/-- Embeds extract_python_requires (lines 65-90): a truthy
requires_python field wins; otherwise the classifier-derived list,
de-duplicated, sorted ascending and comma-joined; otherwise Unknown. -/
def extract_python_requires (info : PyInfo) : String :=
  if truthy info.requires_python then info.requires_python.getD ""
  else
    let versions := pyVersionsFromClassifiers info.classifiers
    if !versions.isEmpty then String.intercalate ", " (sortedDedup versions)
    else "Unknown"

/-- Version-token characters of the pinned regex class. -/
def isPinnedTokenChar (c : Char) : Bool :=
  c.isAlphanum || c = '_' || c = '.' || c = '+' || c = '-'

/-- Embeds the regex match at line 96 of check_pypi_updates: two equal
signs, optional whitespace, then a non-empty token of class characters
reaching the end of the specifier. -/
def pinnedMatch (spec : String) : Option String :=
  if spec.data.take 2 = ['=', '='] then
    let tok := (spec.data.drop 2).dropWhile Char.isWhitespace
    if !tok.isEmpty && tok.all isPinnedTokenChar then some (String.mk tok)
    else none
  else none

/-- Result of the (modelled) network interaction of check_pypi_updates:
either an exception message or the parsed info object. -/
inductive PyFetch
  | failure (msg : String)
  | success (info : PyInfo)

/-- Embeds check_pypi_updates (lines 93-113) with the network call
abstracted into `fetchRes`: a non-pinned specifier returns all None
without any registry lookup; an exception returns only an error string;
success returns the extracted fields. -/
def check_pypi_updates (fetchRes : PyFetch) (spec : String) : FetchRes :=
  match pinnedMatch spec with
  | none => ⟨none, none, none, none, none⟩
  | some current =>
    match fetchRes with
    | .failure msg => ⟨none, none, none, none, some ("ERROR: " ++ msg)⟩
    | .success info =>
      ⟨some current, some info.version, some (extract_license info),
        some (extract_python_requires info), none⟩

/- ===== npm backend (src/main.py lines 116-146) ===== -/

/-- A non-empty run of digits. -/
def isDigitRun (l : List Char) : Bool := !l.isEmpty && l.all Char.isDigit

/-- Three dot-separated digit runs. -/
def isVersionTriple (l : List Char) : Bool :=
  match l.splitOn '.' with
  | [a, b, c] => isDigitRun a && isDigitRun b && isDigitRun c
  | _ => false

/-- Characters allowed after the dash of the npm version token. -/
def isPreChar (c : Char) : Bool := c.isAlphanum || c = '.'

/-- The language of the regex version token of line 120: three
dot-separated digit runs, optionally followed by a dash and a non-empty
run of letters, digits and dots. -/
def isVersionToken (l : List Char) : Bool :=
  match l.splitOn '-' with
  | [t] => isVersionTriple t
  | [t, p] => isVersionTriple t && !p.isEmpty && p.all isPreChar
  | _ => false

/-- Embeds re.search of the end-anchored token regex: the search tries
start positions left to right, so it returns the longest suffix in the
token language, when one exists. -/
def longestTokenSuffix : List Char → Option (List Char)
  | [] => none
  | c :: rest =>
    if isVersionToken (c :: rest) then some (c :: rest)
    else longestTokenSuffix rest

/-- The current version check_npm_updates extracts from a specifier
(lines 119-125). -/
def npmCurrent (spec : String) : Option String :=
  (longestTokenSuffix spec.data).map String.mk

/-- An npm license value: either a plain string or an object, modelled
as its field list. -/
inductive NpmLicense
  | str (s : String)
  | dict (entries : List (String × String))
deriving DecidableEq

/-- Python truthiness of an optional license value: a non-empty string
or a non-empty object. -/
def npmLicTruthy : Option NpmLicense → Bool
  | none => false
  | some (.str s) => !s.isEmpty
  | some (.dict es) => !es.isEmpty

/-- Embeds lines 137-139: the first truthy of the per-release license
and the document license, defaulting to Unknown; an object value is
unwrapped to its type field, defaulting to Unknown. -/
def npmLicenseValue (a b : Option NpmLicense) : String :=
  match (if npmLicTruthy a then a else if npmLicTruthy b then b else none) with
  | some (.str s) => s
  | some (.dict es) =>
    match es.lookup "type" with
    | some t => t
    | none => "Unknown"
  | none => "Unknown"

/-- The npm registry document, restricted to the projections the program
reads: the latest dist-tag, the license of the latest release, the
document-level license, and the node engine constraint of the latest
release. -/
structure NpmDoc where
  latest : Option String
  latestLicense : Option NpmLicense
  docLicense : Option NpmLicense
  enginesNode : Option String

/-- Result of the (modelled) network interaction of check_npm_updates. -/
inductive NpmFetch
  | failure (msg : String)
  | success (doc : NpmDoc)

/-- Embeds check_npm_updates (lines 116-146) with the network call
abstracted into `fetchRes`: a specifier without a trailing version token
returns all None without any registry lookup; an exception returns only
an error string; a missing or falsy latest tag is an error; otherwise
the extracted fields. -/
def check_npm_updates (fetchRes : NpmFetch) (spec : String) : FetchRes :=
  match npmCurrent spec with
  | none => ⟨none, none, none, none, none⟩
  | some current =>
    match fetchRes with
    | .failure msg => ⟨none, none, none, none, some ("ERROR: " ++ msg)⟩
    | .success doc =>
      match doc.latest with
      | some latest =>
        if latest.isEmpty then ⟨none, none, none, none, some "ERROR: no latest tag"⟩
        else ⟨some current, some latest,
          some (npmLicenseValue doc.latestLicense doc.docLicense),
          some (doc.enginesNode.getD "Unknown"), none⟩
      | none => ⟨none, none, none, none, some "ERROR: no latest tag"⟩

/-- A concrete fetch oracle exercising the loop: the dependency named
bad fails, every other dependency reports itself up to date. -/
def fetchW : String → String → FetchRes := fun n _ =>
  if n = "bad" then ⟨none, none, none, none, some "boom"⟩
  else ⟨some "1.0", some "1.0", some "MIT", some "3.8", none⟩

/- ===== Claim-side formulations ===== -/

/-- The cleaning step as claim C3 words it: remove one leading non-digit
prefix character. -/
def stripOneNonDigit (s : String) : String :=
  match s.data with
  | c :: rest => if c.isDigit then s else String.mk rest
  | [] => s

/-- Comparison after the claim-C3 cleaning step. -/
def compareStripOne (a b : String) : Option Ordering :=
  match parseVersion (stripOneNonDigit a), parseVersion (stripOneNonDigit b) with
  | some p, some q => some (cmpPV p q)
  | _, _ => none

/-- Removing every leading letter v, written as plain recursion (the
amended-C3 formulation of the cleaning step). -/
def stripAllV : List Char → List Char
  | [] => []
  | c :: rest => if c = 'v' then stripAllV rest else c :: rest

/-- Comparison without any cleaning step. -/
def compareNoStrip (a b : String) : Option Ordering :=
  match parseVersion a, parseVersion b with
  | some p, some q => some (cmpPV p q)
  | _, _ => none

/- ===== Laws of the version comparator ===== -/

theorem cmpNat_eq_iff {a b : Nat} : cmpNat a b = .eq ↔ a = b := by
  unfold cmpNat
  by_cases h1 : a < b
  · simp [h1]
    omega
  · by_cases h2 : b < a
    · simp [h1, h2]
      omega
    · simp [h1, h2]
      omega

theorem cmpNat_lt_iff {a b : Nat} : cmpNat a b = .lt ↔ a < b := by
  unfold cmpNat
  by_cases h1 : a < b
  · simp [h1]
  · by_cases h2 : b < a <;> simp [h1, h2]

theorem cmpNat_gt_iff {a b : Nat} : cmpNat a b = .gt ↔ b < a := by
  unfold cmpNat
  by_cases h1 : a < b
  · simp [h1]
    omega
  · by_cases h2 : b < a <;> simp [h1, h2]

theorem cmpNat_swap (a b : Nat) : cmpNat a b = (cmpNat b a).swap := by
  unfold cmpNat
  by_cases h1 : a < b
  · have h2 : ¬ b < a := by omega
    simp [h1, h2, Ordering.swap]
  · by_cases h2 : b < a
    · simp [h1, h2, Ordering.swap]
    · simp [h1, h2, Ordering.swap]

theorem cmpList_eq_iff : ∀ {a b : List Nat}, cmpList a b = .eq ↔ a = b := by
  intro a
  induction a with
  | nil => intro b; cases b <;> simp [cmpList]
  | cons x xs ih =>
    intro b
    cases b with
    | nil => simp [cmpList]
    | cons y ys =>
      rw [cmpList, Ordering.then_eq_eq, cmpNat_eq_iff, ih]
      simp

theorem cmpList_swap : ∀ (a b : List Nat), cmpList a b = (cmpList b a).swap := by
  intro a
  induction a with
  | nil => intro b; cases b <;> rfl
  | cons x xs ih =>
    intro b
    cases b with
    | nil => rfl
    | cons y ys =>
      rw [cmpList, cmpList, Ordering.swap_then, ← cmpNat_swap, ← ih]

theorem cmpList_trans :
    ∀ {a b c : List Nat}, cmpList a b = .lt → cmpList b c = .lt → cmpList a c = .lt := by
  intro a
  induction a with
  | nil =>
    intro b c h1 h2
    cases b with
    | nil => exact absurd h1 (by simp [cmpList])
    | cons y ys =>
      cases c with
      | nil => exact absurd h2 (by simp [cmpList])
      | cons z zs => simp [cmpList]
  | cons x xs ih =>
    intro b c h1 h2
    cases b with
    | nil => exact absurd h1 (by simp [cmpList])
    | cons y ys =>
      cases c with
      | nil => exact absurd h2 (by simp [cmpList])
      | cons z zs =>
        rw [cmpList, Ordering.then_eq_lt] at h1 h2 ⊢
        rcases h1 with h1 | ⟨h1e, h1l⟩ <;> rcases h2 with h2 | ⟨h2e, h2l⟩
        · refine Or.inl (cmpNat_lt_iff.mpr ?_)
          have a1 := cmpNat_lt_iff.mp h1
          have a2 := cmpNat_lt_iff.mp h2
          omega
        · refine Or.inl (cmpNat_lt_iff.mpr ?_)
          have a1 := cmpNat_lt_iff.mp h1
          have a2 := cmpNat_eq_iff.mp h2e
          omega
        · refine Or.inl (cmpNat_lt_iff.mpr ?_)
          have a1 := cmpNat_eq_iff.mp h1e
          have a2 := cmpNat_lt_iff.mp h2
          omega
        · refine Or.inr ⟨cmpNat_eq_iff.mpr ?_, ih h1l h2l⟩
          have a1 := cmpNat_eq_iff.mp h1e
          have a2 := cmpNat_eq_iff.mp h2e
          omega

theorem cmpPre_eq_iff : ∀ {x y : Option (Nat × Nat)}, cmpPre x y = .eq ↔ x = y := by
  intro x y
  match x, y with
  | none, none => simp [cmpPre]
  | none, some p => simp [cmpPre]
  | some p, none => simp [cmpPre]
  | some (p1, n1), some (p2, n2) =>
    rw [cmpPre, Ordering.then_eq_eq, cmpNat_eq_iff, cmpNat_eq_iff]
    simp

theorem cmpPre_swap : ∀ (x y : Option (Nat × Nat)), cmpPre x y = (cmpPre y x).swap := by
  intro x y
  match x, y with
  | none, none => rfl
  | none, some p => rfl
  | some p, none => rfl
  | some (p1, n1), some (p2, n2) =>
    rw [cmpPre, cmpPre, Ordering.swap_then, ← cmpNat_swap, ← cmpNat_swap]

theorem cmpPre_trans :
    ∀ {x y z : Option (Nat × Nat)},
      cmpPre x y = .lt → cmpPre y z = .lt → cmpPre x z = .lt := by
  intro x y z h1 h2
  match x, y, z with
  | none, none, _ => exact absurd h1 (by simp [cmpPre])
  | none, some _, _ => exact absurd h1 (by simp [cmpPre])
  | some _, none, none => exact absurd h2 (by simp [cmpPre])
  | some _, none, some _ => exact absurd h2 (by simp [cmpPre])
  | some _, some _, none => rfl
  | some (p1, n1), some (p2, n2), some (p3, n3) =>
    rw [cmpPre, Ordering.then_eq_lt] at h1 h2 ⊢
    rcases h1 with h1 | ⟨h1e, h1l⟩ <;> rcases h2 with h2 | ⟨h2e, h2l⟩
    · refine Or.inl (cmpNat_lt_iff.mpr ?_)
      have a1 := cmpNat_lt_iff.mp h1
      have a2 := cmpNat_lt_iff.mp h2
      omega
    · refine Or.inl (cmpNat_lt_iff.mpr ?_)
      have a1 := cmpNat_lt_iff.mp h1
      have a2 := cmpNat_eq_iff.mp h2e
      omega
    · refine Or.inl (cmpNat_lt_iff.mpr ?_)
      have a1 := cmpNat_eq_iff.mp h1e
      have a2 := cmpNat_lt_iff.mp h2
      omega
    · refine Or.inr ⟨cmpNat_eq_iff.mpr ?_, ?_⟩
      · have a1 := cmpNat_eq_iff.mp h1e
        have a2 := cmpNat_eq_iff.mp h2e
        omega
      · have a1 := cmpNat_lt_iff.mp h1l
        have a2 := cmpNat_lt_iff.mp h2l
        exact cmpNat_lt_iff.mpr (by omega)

theorem cmpPV_refl (a : PV) : cmpPV a a = .eq := by
  unfold cmpPV
  rw [Ordering.then_eq_eq]
  exact ⟨cmpList_eq_iff.mpr rfl, cmpPre_eq_iff.mpr rfl⟩

theorem cmpPV_swap (a b : PV) : cmpPV a b = (cmpPV b a).swap := by
  unfold cmpPV
  rw [Ordering.swap_then, ← cmpList_swap, ← cmpPre_swap]

theorem cmpPV_trans {a b c : PV} :
    cmpPV a b = .lt → cmpPV b c = .lt → cmpPV a c = .lt := by
  unfold cmpPV
  rw [Ordering.then_eq_lt, Ordering.then_eq_lt, Ordering.then_eq_lt]
  rintro (h1 | ⟨h1e, h1l⟩) (h2 | ⟨h2e, h2l⟩)
  · exact Or.inl (cmpList_trans h1 h2)
  · exact Or.inl (by rw [← cmpList_eq_iff.mp h2e]; exact h1)
  · exact Or.inl (by rw [cmpList_eq_iff.mp h1e]; exact h2)
  · refine Or.inr ⟨?_, cmpPre_trans h1l h2l⟩
    rw [cmpList_eq_iff.mp h1e]
    exact h2e

/- ===== Helper lemmas ===== -/

theorem ordering_swap_lt {o : Ordering} : o.swap = .lt ↔ o = .gt := by
  cases o <;> simp [Ordering.swap]

theorem ordering_swap_eq {o : Ordering} : o.swap = .eq ↔ o = .eq := by
  cases o <;> simp [Ordering.swap]

theorem compareVersions_some {a b : String} {pa pb : PV}
    (ha : cleanParse a = some pa) (hb : cleanParse b = some pb) :
    compareVersions a b = some (cmpPV pa pb) := by
  unfold compareVersions
  rw [ha, hb]

theorem stripAllV_eq (l : List Char) :
    stripAllV l = l.dropWhile (fun c => c = 'v') := by
  induction l with
  | nil => rfl
  | cons c rest ih =>
    rw [stripAllV, List.dropWhile_cons]
    by_cases h : c = 'v'
    · simp [h, ih]
    · simp [h]

theorem tokenChar_not_ws {ch : Char} (h : isPinnedTokenChar ch = true) :
    Char.isWhitespace ch = false := by
  rcases hw : ch.isWhitespace with _ | _
  · rfl
  · exfalso
    unfold Char.isWhitespace at hw
    simp only [Bool.or_eq_true, decide_eq_true_eq] at hw
    rcases hw with ((rfl | rfl) | rfl) | rfl <;> simp [isPinnedTokenChar] at h

theorem dropWhile_ws_append (ws : List Char) (x : Char) (xs : List Char)
    (h1 : ws.all Char.isWhitespace = true) (h2 : Char.isWhitespace x = false) :
    (ws ++ x :: xs).dropWhile Char.isWhitespace = x :: xs := by
  induction ws with
  | nil => simp [List.dropWhile_cons, h2]
  | cons w ws ih =>
    rw [List.all_cons, Bool.and_eq_true] at h1
    rw [List.cons_append, List.dropWhile_cons, if_pos h1.1]
    exact ih h1.2

theorem pinnedMatch_build (ws tok : String)
    (hws : ws.data.all Char.isWhitespace = true)
    (hne : tok.data ≠ []) (htok : tok.data.all isPinnedTokenChar = true) :
    pinnedMatch ("==" ++ ws ++ tok) = some tok := by
  have hdata : ("==" ++ ws ++ tok).data = '=' :: '=' :: (ws.data ++ tok.data) := by
    rw [String.data_append, String.data_append]
    rfl
  unfold pinnedMatch
  rw [hdata]
  rw [show List.take 2 ('=' :: '=' :: (ws.data ++ tok.data)) = ['=', '='] from rfl]
  rw [show List.drop 2 ('=' :: '=' :: (ws.data ++ tok.data)) = ws.data ++ tok.data from rfl]
  rw [if_pos rfl]
  rcases k : tok.data with _ | ⟨x, xs⟩
  · exact absurd k hne
  · have hx : isPinnedTokenChar x = true := by
      rw [k, List.all_cons, Bool.and_eq_true] at htok
      exact htok.1
    rw [dropWhile_ws_append ws.data x xs hws (tokenChar_not_ws hx)]
    have hcond : (!(x :: xs).isEmpty && (x :: xs).all isPinnedTokenChar) = true := by
      rw [k] at htok
      simp [htok]
    rw [if_pos hcond]
    exact congrArg some (String.ext k).symm

theorem pinnedMatch_some {spec X : String} (h : pinnedMatch spec = some X) :
    ∃ ws : String, spec = "==" ++ ws ++ X ∧ ws.data.all Char.isWhitespace = true ∧
      X.data ≠ [] ∧ X.data.all isPinnedTokenChar = true := by
  unfold pinnedMatch at h
  by_cases htake : spec.data.take 2 = ['=', '=']
  · rw [if_pos htake] at h
    by_cases hcond :
        (!((spec.data.drop 2).dropWhile Char.isWhitespace).isEmpty &&
          ((spec.data.drop 2).dropWhile Char.isWhitespace).all isPinnedTokenChar) = true
    · rw [if_pos hcond] at h
      rw [Bool.and_eq_true] at hcond
      obtain ⟨h1, hall⟩ := hcond
      have hX : X = String.mk ((spec.data.drop 2).dropWhile Char.isWhitespace) :=
        (Option.some.inj h).symm
      refine ⟨String.mk ((spec.data.drop 2).takeWhile Char.isWhitespace), ?_, ?_, ?_, ?_⟩
      · apply String.ext
        rw [String.data_append, String.data_append, hX]
        show spec.data = '=' :: '=' ::
          ((spec.data.drop 2).takeWhile Char.isWhitespace ++
           (spec.data.drop 2).dropWhile Char.isWhitespace)
        rw [List.takeWhile_append_dropWhile]
        conv_lhs => rw [← List.take_append_drop 2 spec.data]
        rw [htake]
        rfl
      · rw [List.all_eq_true]
        intro x hx
        exact List.mem_takeWhile_imp hx
      · rw [hX]
        intro hc
        have hc2 : (spec.data.drop 2).dropWhile Char.isWhitespace = [] := hc
        rw [hc2] at h1
        simp at h1
      · rw [hX]
        exact hall
    · rw [if_neg hcond] at h
      exact absurd h (by simp)
  · rw [if_neg htake] at h
    exact absurd h (by simp)

theorem longestTokenSuffix_some :
    ∀ {l v : List Char}, longestTokenSuffix l = some v →
      v <:+ l ∧ isVersionToken v = true ∧
        ∀ w, w <:+ l → isVersionToken w = true → w.length ≤ v.length := by
  intro l
  induction l with
  | nil => intro v h; exact absurd h (by simp [longestTokenSuffix])
  | cons c rest ih =>
    intro v h
    rw [longestTokenSuffix] at h
    by_cases ht : isVersionToken (c :: rest) = true
    · rw [if_pos ht] at h
      obtain rfl := Option.some.inj h
      refine ⟨List.suffix_refl _, ht, ?_⟩
      intro w hw _
      exact hw.length_le
    · rw [if_neg ht] at h
      obtain ⟨hsuf, htok, hmax⟩ := ih h
      refine ⟨hsuf.trans (List.suffix_cons c rest), htok, ?_⟩
      intro w hw hwt
      rcases List.suffix_cons_iff.mp hw with rfl | hw2
      · exact absurd hwt ht
      · exact hmax w hw2 hwt

theorem longestTokenSuffix_none :
    ∀ {l : List Char}, longestTokenSuffix l = none →
      ∀ w, w <:+ l → isVersionToken w = false := by
  intro l
  induction l with
  | nil =>
    intro _ w hw
    rw [List.suffix_nil.mp hw]
    decide
  | cons c rest ih =>
    intro h w hw
    rw [longestTokenSuffix] at h
    by_cases ht : isVersionToken (c :: rest) = true
    · rw [if_pos ht] at h
      exact absurd h (by simp)
    · rw [if_neg ht] at h
      rcases List.suffix_cons_iff.mp hw with rfl | hw2
      · exact Bool.not_eq_true _ ▸ ht
      · exact ih h w hw2

theorem listLe_total : ∀ (a b : List Char), (listLe a b || listLe b a) = true := by
  intro a
  induction a with
  | nil => intro b; simp [listLe]
  | cons x xs ih =>
    intro b
    cases b with
    | nil => simp [listLe]
    | cons y ys =>
      rw [listLe, listLe]
      by_cases h : x.toNat = y.toNat
      · rw [if_pos h, if_pos (by omega)]
        exact ih ys
      · rw [if_neg h, if_neg (by omega)]
        simp
        omega

theorem listLe_trans :
    ∀ {a b c : List Char}, listLe a b = true → listLe b c = true → listLe a c = true := by
  intro a
  induction a with
  | nil => intro b c _ _; rfl
  | cons x xs ih =>
    intro b c h1 h2
    cases b with
    | nil => exact absurd h1 (by simp [listLe])
    | cons y ys =>
      cases c with
      | nil => exact absurd h2 (by simp [listLe])
      | cons z zs =>
        rw [listLe] at h1 h2 ⊢
        by_cases hxy : x.toNat = y.toNat <;> by_cases hyz : y.toNat = z.toNat
        · rw [if_pos hxy] at h1
          rw [if_pos hyz] at h2
          rw [if_pos (by omega)]
          exact ih h1 h2
        · rw [if_pos hxy] at h1
          rw [if_neg hyz] at h2
          simp at h2
          rw [if_neg (by omega)]
          simp
          omega
        · rw [if_neg hxy] at h1
          rw [if_pos hyz] at h2
          simp at h1
          rw [if_neg (by omega)]
          simp
          omega
        · rw [if_neg hxy] at h1
          rw [if_neg hyz] at h2
          simp at h1 h2
          rw [if_neg (by omega)]
          simp
          omega

theorem strLe_trans (a b c : String) :
    strLe a b = true → strLe b c = true → strLe a c = true := listLe_trans

theorem strLe_total (a b : String) : (strLe a b || strLe b a) = true :=
  listLe_total a.data b.data

theorem insertLe_perm (x : String) : ∀ l : List String, List.Perm (insertLe x l) (x :: l) := by
  intro l
  induction l with
  | nil => exact List.Perm.refl _
  | cons y ys ih =>
    rw [insertLe]
    by_cases h : strLe x y = true
    · rw [if_pos h]
    · rw [if_neg h]
      exact (ih.cons y).trans (List.Perm.swap x y ys)

theorem sortLe_perm : ∀ l : List String, List.Perm (sortLe l) l := by
  intro l
  induction l with
  | nil => exact List.Perm.refl _
  | cons x xs ih =>
    rw [sortLe]
    exact (insertLe_perm x (sortLe xs)).trans (ih.cons x)

theorem pairwise_insertLe (x : String) :
    ∀ {l : List String}, List.Pairwise (fun a b => strLe a b = true) l →
      List.Pairwise (fun a b => strLe a b = true) (insertLe x l) := by
  intro l
  induction l with
  | nil =>
    intro _
    simp [insertLe]
  | cons y ys ih =>
    intro hp
    obtain ⟨hy, hys⟩ := List.pairwise_cons.mp hp
    rw [insertLe]
    by_cases h : strLe x y = true
    · rw [if_pos h]
      refine List.pairwise_cons.mpr ⟨?_, hp⟩
      intro z hz
      rcases List.mem_cons.mp hz with rfl | hz2
      · exact h
      · exact strLe_trans x y z h (hy z hz2)
    · rw [if_neg h]
      refine List.pairwise_cons.mpr ⟨?_, ih hys⟩
      intro z hz
      have hz3 := (insertLe_perm x ys).mem_iff.mp hz
      rcases List.mem_cons.mp hz3 with rfl | hz4
      · have ht := strLe_total z y
        rw [Bool.or_eq_true] at ht
        rcases ht with h1 | h2
        · exact absurd h1 h
        · exact h2
      · exact hy z hz4

theorem sortLe_sorted : ∀ l : List String,
    List.Pairwise (fun a b => strLe a b = true) (sortLe l) := by
  intro l
  induction l with
  | nil => exact List.Pairwise.nil
  | cons x xs ih =>
    rw [sortLe]
    exact pairwise_insertLe x ih

theorem sortedDedup_sorted (l : List String) :
    List.Pairwise (fun a b => strLe a b = true) (sortedDedup l) :=
  sortLe_sorted l.dedup

theorem sortedDedup_nodup (l : List String) : (sortedDedup l).Nodup :=
  ((sortLe_perm l.dedup).symm).nodup (List.nodup_dedup l)

theorem sortedDedup_mem (l : List String) (v : String) :
    v ∈ sortedDedup l ↔ v ∈ l :=
  ((sortLe_perm l.dedup).mem_iff).trans List.mem_dedup

theorem stepDep_decomp (fetch : String → String → FetchRes) (acc : RunAcc)
    (d : String × String) :
    stepDep fetch acc d =
      ⟨acc.errors ++ (stepDep fetch ⟨[], [], []⟩ d).errors,
       acc.outdated ++ (stepDep fetch ⟨[], [], []⟩ d).outdated,
       acc.warnings ++ (stepDep fetch ⟨[], [], []⟩ d).warnings⟩ := by
  rcases acc with ⟨E, O, W⟩
  unfold stepDep
  by_cases h1 : truthy (fetch d.1 d.2).err = true
  · simp [h1]
  · by_cases h2 : (!truthy (fetch d.1 d.2).current || !truthy (fetch d.1 d.2).latest) = true
    · simp [h1, h2]
    · simp [h1, h2]

theorem foldl_stepDep (fetch : String → String → FetchRes) :
    ∀ (l : List (String × String)) (acc : RunAcc),
      l.foldl (stepDep fetch) acc =
        ⟨acc.errors ++ (runDeps fetch l).errors,
         acc.outdated ++ (runDeps fetch l).outdated,
         acc.warnings ++ (runDeps fetch l).warnings⟩ := by
  intro l
  induction l with
  | nil =>
    intro acc
    rcases acc with ⟨E, O, W⟩
    simp [runDeps]
  | cons d rest ih =>
    intro acc
    have hr : runDeps fetch (d :: rest) =
        ⟨(stepDep fetch ⟨[], [], []⟩ d).errors ++ (runDeps fetch rest).errors,
         (stepDep fetch ⟨[], [], []⟩ d).outdated ++ (runDeps fetch rest).outdated,
         (stepDep fetch ⟨[], [], []⟩ d).warnings ++ (runDeps fetch rest).warnings⟩ := by
      show List.foldl (stepDep fetch) ⟨[], [], []⟩ (d :: rest) = _
      rw [List.foldl_cons]
      exact ih (stepDep fetch ⟨[], [], []⟩ d)
    rw [List.foldl_cons, ih (stepDep fetch acc d), stepDep_decomp fetch acc d, hr]
    simp [List.append_assoc]

theorem ordering_swap_gt {o : Ordering} : o.swap = .gt ↔ o = .lt := by
  cases o <;> simp [Ordering.swap]

/- ===== Claim theorems ===== -/

/-- C1: for every dependency whose current version and registry latest
version both parse, the classification step of main assigns exactly one
of three outcomes by comparison: latest greater than current gives
Outdated carrying the latest version string, license and runtime
requirement; current greater than latest gives AheadOfRegistry with a
warning line naming both version strings; equal gives UpToDate, which
contributes neither a table row nor a warning line. -/
theorem claim_c1_classification (name spec current latest license envReq : String)
    (cv lv : PV) (hc : cleanParse current = some cv)
    (hl : cleanParse latest = some lv) :
    (cmpPV lv cv = .gt →
      classify name spec current latest license envReq =
        .outdated ⟨name, spec, latest, license, envReq⟩)
    ∧ (cmpPV cv lv = .gt →
        classify name spec current latest license envReq =
          .ahead (warningMsg name current latest)
        ∧ ∃ p m : String, warningMsg name current latest =
            p ++ current ++ m ++ latest ++ "!")
    ∧ (cmpPV cv lv = .eq →
        classify name spec current latest license envReq = .upToDate
        ∧ outcomeRows (classify name spec current latest license envReq) = []
        ∧ outcomeWarnings (classify name spec current latest license envReq) = [])
    ∧ classify name spec current latest license envReq ≠ .skipped := by
  have hcl : classify name spec current latest license envReq =
      match cmpPV lv cv with
      | .gt => .outdated ⟨name, spec, latest, license, envReq⟩
      | .lt => .ahead (warningMsg name current latest)
      | .eq => .upToDate := by
    unfold classify
    rw [hc, hl]
  refine ⟨?_, ?_, ?_, ?_⟩
  · intro h
    rw [hcl, h]
  · intro h
    have hlv : cmpPV lv cv = .lt := by
      rw [cmpPV_swap cv lv] at h
      exact ordering_swap_gt.mp h
    constructor
    · rw [hcl, hlv]
    · exact ⟨"WARNING: " ++ name ++ " specified version ",
        " is NEWER than latest ", rfl⟩
  · intro h
    have hlv : cmpPV lv cv = .eq := by
      rw [cmpPV_swap cv lv] at h
      exact ordering_swap_eq.mp h
    rw [hcl, hlv]
    exact ⟨rfl, rfl, rfl⟩
  · rw [hcl]
    cases k : cmpPV lv cv <;> simp

/-- C1 witness: the spec example: manifest beta pinned at 2.0.0 with
registry latest 1.5.0 is classified AheadOfRegistry with a warning line
naming both versions. -/
theorem claim_c1_witness :
    cleanParse "2.0.0" = some ⟨[2, 0, 0], none⟩ ∧
    cleanParse "1.5.0" = some ⟨[1, 5, 0], none⟩ ∧
    cmpPV ⟨[2, 0, 0], none⟩ ⟨[1, 5, 0], none⟩ = .gt ∧
    (classify "beta" "==2.0.0" "2.0.0" "1.5.0" "MIT" "Unknown" =
        .ahead (warningMsg "beta" "2.0.0" "1.5.0")
      ∧ ∃ p m : String, warningMsg "beta" "2.0.0" "1.5.0" =
          p ++ "2.0.0" ++ m ++ "1.5.0" ++ "!") :=
  ⟨by decide, by decide, by decide,
    (claim_c1_classification "beta" "==2.0.0" "2.0.0" "1.5.0" "MIT" "Unknown"
      ⟨[2, 0, 0], none⟩ ⟨[1, 5, 0], none⟩ (by decide) (by decide)).2.1 (by decide)⟩

/-- C2: the composed version comparator of main is a strict total order
on parseable version strings: it is defined (returns exactly one
ordering) on any parseable pair, comparing a string with itself gives
Equal, Less one way holds exactly when Greater holds the other way (and
likewise Equal), and Less is transitive across any three mutually
parseable strings. -/
theorem claim_c2_strict_total_order (a b c : String)
    (ha : (cleanParse a).isSome = true) (hb : (cleanParse b).isSome = true)
    (hc : (cleanParse c).isSome = true) :
    compareVersions a a = some Ordering.eq
    ∧ (∃ o, compareVersions a b = some o)
    ∧ (compareVersions a b = some Ordering.lt ↔
        compareVersions b a = some Ordering.gt)
    ∧ (compareVersions a b = some Ordering.eq ↔
        compareVersions b a = some Ordering.eq)
    ∧ (compareVersions a b = some Ordering.lt →
        compareVersions b c = some Ordering.lt →
          compareVersions a c = some Ordering.lt) := by
  obtain ⟨pa, hpa⟩ := Option.isSome_iff_exists.mp ha
  obtain ⟨pb, hpb⟩ := Option.isSome_iff_exists.mp hb
  obtain ⟨pc, hpc⟩ := Option.isSome_iff_exists.mp hc
  have e_aa := compareVersions_some hpa hpa
  have e_ab := compareVersions_some hpa hpb
  have e_ba := compareVersions_some hpb hpa
  have e_bc := compareVersions_some hpb hpc
  have e_ac := compareVersions_some hpa hpc
  refine ⟨?_, ⟨cmpPV pa pb, e_ab⟩, ?_, ?_, ?_⟩
  · rw [e_aa, cmpPV_refl]
  · rw [e_ab, e_ba, cmpPV_swap pb pa]
    simp only [Option.some.injEq]
    exact ordering_swap_gt.symm
  · rw [e_ab, e_ba, cmpPV_swap pb pa]
    simp only [Option.some.injEq]
    exact ordering_swap_eq.symm
  · intro h1 h2
    rw [e_ab] at h1
    rw [e_bc] at h2
    rw [e_ac]
    exact congrArg some (cmpPV_trans (Option.some.inj h1) (Option.some.inj h2))

/-- C2 witness: reflexivity and the Less/Greater flip at concrete
parseable versions. -/
theorem claim_c2_witness :
    (cleanParse "1.0.0").isSome = true ∧
    compareVersions "1.0.0" "1.0.0" = some Ordering.eq ∧
    (compareVersions "1.0.0" "1.2.3" = some Ordering.lt ↔
      compareVersions "1.2.3" "1.0.0" = some Ordering.gt) :=
  ⟨by decide,
    (claim_c2_strict_total_order "1.0.0" "1.2.3" "2.0.0"
      (by decide) (by decide) (by decide)).1,
    (claim_c2_strict_total_order "1.0.0" "1.2.3" "2.0.0"
      (by decide) (by decide) (by decide)).2.2.1⟩

/-- C3 counterexample: the claim says one leading non-digit prefix
character is stripped before comparison, but the code strips only the
letter v (and strips every leading v).  On the pair (x2.0.0, 1.9.9) the
code skips the comparison entirely, while the claim-described cleaning
step would yield Greater. -/
theorem claim_c3_counterexample :
    compareVersions "x2.0.0" "1.9.9" = none ∧
    compareStripOne "x2.0.0" "1.9.9" = some Ordering.gt := by
  exact ⟨by decide, by decide⟩

/-- C3 amended: before comparison the cleaning step strips every leading
letter v (and only the letter v) from each version string, independently
for each side; comparing v2.0.0 against 1.9.9 yields Greater, and the
stripping is idempotent with respect to repeated v prefixes. -/
theorem claim_c3_amended :
    (∀ s t : String, compareVersions s t =
      compareNoStrip (String.mk (stripAllV s.data)) (String.mk (stripAllV t.data)))
    ∧ compareVersions "v2.0.0" "1.9.9" = some Ordering.gt
    ∧ compareVersions "vv2.0.0" "2.0.0" = some Ordering.eq := by
  refine ⟨?_, by decide, by decide⟩
  intro s t
  unfold compareVersions compareNoStrip cleanParse lstripV
  rw [stripAllV_eq, stripAllV_eq]

/-- C4 counterexample: the claim counts range expressions with multiple
bounds among the specifiers yielding Unrecognized, but on the two-bound
range >=1.0.0 <2.0.0 the extractor finds the trailing literal 2.0.0 as
the current version and the registry lookup proceeds. -/
theorem claim_c4_counterexample :
    npmCurrent ">=1.0.0 <2.0.0" = some "2.0.0" ∧
    check_npm_updates (.success ⟨some "3.0.0", none, none, none⟩)
        ">=1.0.0 <2.0.0" =
      ⟨some "2.0.0", some "3.0.0", some "Unknown", some "Unknown", none⟩ :=
  ⟨by decide, by decide⟩

/-- C4 amended: the extractor returns the longest suffix of the
specifier lying in the token language of three dot-separated digit runs
with an optional dash suffix, as the current version; a specifier none
of whose suffixes lies in that language (wildcards, tag names, ranges
whose final bound does not end in such a literal) yields Unrecognized
and is excluded from the registry lookup. -/
theorem claim_c4_amended (spec : String) :
    (∀ v : String, npmCurrent spec = some v →
      v.data <:+ spec.data ∧ isVersionToken v.data = true ∧
        ∀ w, w <:+ spec.data → isVersionToken w = true →
          w.length ≤ v.data.length)
    ∧ (npmCurrent spec = none →
        (∀ w, w <:+ spec.data → isVersionToken w = false)
        ∧ ∀ f, check_npm_updates f spec = ⟨none, none, none, none, none⟩) := by
  constructor
  · intro v hv
    unfold npmCurrent at hv
    rw [Option.map_eq_some'] at hv
    obtain ⟨u, hu, huv⟩ := hv
    obtain ⟨hsuf, htok, hmax⟩ := longestTokenSuffix_some hu
    have hvd : v.data = u := by rw [← huv]
    rw [hvd]
    exact ⟨hsuf, htok, hmax⟩
  · intro h
    have hn : longestTokenSuffix spec.data = none := by
      unfold npmCurrent at h
      rcases k : longestTokenSuffix spec.data with _ | u
      · rfl
      · rw [k] at h
        simp at h
    refine ⟨longestTokenSuffix_none hn, ?_⟩
    intro f
    unfold check_npm_updates
    rw [h]

/-- C4 witness: a caret specifier qualifies with its trailing literal,
and a wildcard is excluded from the registry lookup. -/
theorem claim_c4_witness :
    npmCurrent "^1.2.3" = some "1.2.3" ∧
    isVersionToken ("1.2.3" : String).data = true ∧
    (∀ f, check_npm_updates f "*" = ⟨none, none, none, none, none⟩) :=
  ⟨by decide,
    ((claim_c4_amended "^1.2.3").1 "1.2.3" (by decide)).2.1,
    ((claim_c4_amended "*").2 (by decide)).2⟩

/-- C5 counterexample: the claim takes the requires_python field whenever
present, but the code only takes it when truthy: with the field present
and empty, the requirement is derived from the classifiers instead. -/
theorem claim_c5_counterexample :
    (PyInfo.mk "1.0" ["Programming Language :: Python :: 3.9"] none
        (some "")).requires_python = some "" ∧
    extract_python_requires
      ⟨"1.0", ["Programming Language :: Python :: 3.9"], none, some ""⟩ = "3.9" ∧
    extract_python_requires
      ⟨"1.0", ["Programming Language :: Python :: 3.9"], none, some ""⟩ ≠ "" :=
  ⟨rfl, by decide, by decide⟩

/-- C5 amended: the runtime requirement is the explicit requires_python
field when present and non-empty; otherwise it is derived from the
Python language classifiers by taking each final classifier segment
containing a digit, de-duplicating, sorting ascending in the code-point
string order, and joining with commas; otherwise it is Unknown. -/
theorem claim_c5_amended (info : PyInfo) :
    (truthy info.requires_python = true →
      extract_python_requires info = info.requires_python.getD "")
    ∧ (truthy info.requires_python = false →
        pyVersionsFromClassifiers info.classifiers ≠ [] →
          extract_python_requires info =
            String.intercalate ", "
              (sortedDedup (pyVersionsFromClassifiers info.classifiers))
          ∧ List.Pairwise (fun a b => strLe a b = true)
              (sortedDedup (pyVersionsFromClassifiers info.classifiers))
          ∧ (sortedDedup (pyVersionsFromClassifiers info.classifiers)).Nodup
          ∧ ∀ v, (v ∈ sortedDedup (pyVersionsFromClassifiers info.classifiers) ↔
              v ∈ pyVersionsFromClassifiers info.classifiers))
    ∧ (truthy info.requires_python = false →
        pyVersionsFromClassifiers info.classifiers = [] →
          extract_python_requires info = "Unknown") := by
  refine ⟨?_, ?_, ?_⟩
  · intro h
    unfold extract_python_requires
    rw [if_pos h]
  · intro h hne
    have hfalse : (pyVersionsFromClassifiers info.classifiers).isEmpty = false := by
      rcases k : (pyVersionsFromClassifiers info.classifiers).isEmpty with _ | _
      · rfl
      · exact absurd (List.isEmpty_iff.mp k) hne
    refine ⟨?_, sortedDedup_sorted _, sortedDedup_nodup _,
      fun v => sortedDedup_mem _ v⟩
    unfold extract_python_requires
    rw [if_neg (by simp [h])]
    show (if !(pyVersionsFromClassifiers info.classifiers).isEmpty
        then String.intercalate ", "
          (sortedDedup (pyVersionsFromClassifiers info.classifiers))
        else "Unknown") = _
    rw [hfalse]
    simp
  · intro h hempty
    unfold extract_python_requires
    rw [if_neg (by simp [h])]
    show (if !(pyVersionsFromClassifiers info.classifiers).isEmpty
        then String.intercalate ", "
          (sortedDedup (pyVersionsFromClassifiers info.classifiers))
        else "Unknown") = "Unknown"
    rw [hempty]
    simp

/-- C5 witness: a truthy requires_python field wins over the
classifiers. -/
theorem claim_c5_witness :
    truthy (some ">=3.8") = true ∧
    extract_python_requires ⟨"1.0", [], none, some ">=3.8"⟩ = ">=3.8" :=
  ⟨by decide, by
    have h := (claim_c5_amended ⟨"1.0", [], none, some ">=3.8"⟩).1 (by decide)
    simpa using h⟩

theorem extract_license_cases (info : PyInfo) :
    extract_license info =
      if (info.classifiers.filter (fun c => strStartsWith c "License ::")).isEmpty then
        (match info.license with
         | some s => if s.isEmpty then "Unknown" else s
         | none => "Unknown")
      else String.intercalate "; "
        (info.classifiers.filter (fun c => strStartsWith c "License ::")) := by
  unfold extract_license
  rcases k :
      (info.classifiers.filter (fun c => strStartsWith c "License ::")).isEmpty
      with _ | _ <;> simp [k]

/-- C6 counterexample: the claim says exactly the specifiers made of the
exact-equality operator immediately followed by a version token qualify,
but the code also accepts whitespace between the operator and the token:
the specifier with a space qualifies although it is not of that form. -/
theorem claim_c6_counterexample :
    pinnedMatch "== 1.2.3" = some "1.2.3" ∧
    ¬ ∃ X : String, "== 1.2.3" = "==" ++ X ∧ X.data ≠ [] ∧
      X.data.all isPinnedTokenChar = true := by
  constructor
  · decide
  · rintro ⟨X, hX, hne, hall⟩
    have hd : ('=' :: '=' :: ' ' :: '1' :: '.' :: '2' :: '.' :: '3' :: [] : List Char) =
        '=' :: '=' :: X.data := by
      have h2 := congrArg String.data hX
      rw [String.data_append] at h2
      exact h2
    have hd4 : X.data = ' ' :: '1' :: '.' :: '2' :: '.' :: '3' :: [] := by
      injection hd with h1 hd2
      injection hd2 with h2 hd3
      exact hd3.symm
    rw [hd4] at hall
    exact absurd hall (by decide)

/-- C6 amended: the qualifying pinned specifiers are exactly those of
the form two equal signs, optional whitespace, then a non-empty version
token over the class 0-9 A-Z a-z underscore dot plus dash, yielding
Pinned of that token as the current version; every other form is
excluded from the registry lookup. -/
theorem claim_c6_amended (spec X : String) :
    (pinnedMatch spec = some X ↔
      ∃ ws : String, spec = "==" ++ ws ++ X ∧
        ws.data.all Char.isWhitespace = true ∧
        X.data ≠ [] ∧ X.data.all isPinnedTokenChar = true)
    ∧ (pinnedMatch spec = none →
        ∀ f, check_pypi_updates f spec = ⟨none, none, none, none, none⟩) := by
  constructor
  · constructor
    · exact pinnedMatch_some
    · rintro ⟨ws, rfl, hws, hne, hall⟩
      exact pinnedMatch_build ws X hws hne hall
  · intro h f
    unfold check_pypi_updates
    rw [h]

/-- C6 witness: an immediately adjacent pin qualifies, and a range
specifier is excluded from the registry lookup. -/
theorem claim_c6_witness :
    pinnedMatch "==1.2.3" = some "1.2.3" ∧
    (∀ f, check_pypi_updates f ">=1.0" = ⟨none, none, none, none, none⟩) :=
  ⟨(claim_c6_amended "==1.2.3" "1.2.3").1.mpr ⟨"", by decide, by decide, by decide⟩,
    (claim_c6_amended ">=1.0" "x").2 (by decide)⟩

/-- C7 counterexample: with no license classifier and a present but
empty license field, the claim prescribes falling back to the field
value (the empty string), but the code yields Unknown. -/
theorem claim_c7_counterexample :
    (PyInfo.mk "1.0" ["Development Status :: 4 - Beta"] (some "") none).license =
      some "" ∧
    (["Development Status :: 4 - Beta"].filter
      (fun c => strStartsWith c "License ::")) = [] ∧
    extract_license ⟨"1.0", ["Development Status :: 4 - Beta"], some "", none⟩ =
      "Unknown" ∧
    ("Unknown" : String) ≠ "" :=
  ⟨rfl, by decide, by decide, by decide⟩

/-- C7 amended: the license is the license classifiers joined with a
semicolon separator when any exist; otherwise the plain license field
when it is truthy (present and non-empty); otherwise Unknown.  A single
license classifier is returned verbatim. -/
theorem claim_c7_amended (info : PyInfo) :
    (info.classifiers.filter (fun c => strStartsWith c "License ::") ≠ [] →
      extract_license info = String.intercalate "; "
        (info.classifiers.filter (fun c => strStartsWith c "License ::")))
    ∧ (info.classifiers.filter (fun c => strStartsWith c "License ::") = [] →
        truthy info.license = true →
          extract_license info = info.license.getD "")
    ∧ (info.classifiers.filter (fun c => strStartsWith c "License ::") = [] →
        truthy info.license = false →
          extract_license info = "Unknown")
    ∧ ∀ c v lic rp, strStartsWith c "License ::" = true →
        extract_license ⟨v, [c], lic, rp⟩ = c := by
  refine ⟨?_, ?_, ?_, ?_⟩
  · intro h
    have hfalse :
        (info.classifiers.filter (fun c => strStartsWith c "License ::")).isEmpty
          = false := by
      rcases k :
          (info.classifiers.filter (fun c => strStartsWith c "License ::")).isEmpty
          with _ | _
      · rfl
      · exact absurd (List.isEmpty_iff.mp k) h
    rw [extract_license_cases, hfalse]
    simp
  · intro hf ht
    rw [extract_license_cases, hf]
    rcases hl : info.license with _ | s
    · rw [hl] at ht
      simp [truthy] at ht
    · rw [hl] at ht
      simp only [truthy] at ht
      rw [Bool.not_eq_true'] at ht
      simp [ht]
  · intro hf ht
    rw [extract_license_cases, hf]
    rcases hl : info.license with _ | s
    · simp
    · rw [hl] at ht
      have ht2 : s.isEmpty = true := by
        simp only [truthy] at ht
        rcases k : s.isEmpty with _ | _
        · rw [k] at ht
          exact absurd ht (by decide)
        · rfl
      simp [ht2]
  · intro c v lic rp hc
    have hfilter : ([c].filter (fun x => strStartsWith x "License ::")) = [c] := by
      simp [List.filter, hc]
    have h1 := extract_license_cases ⟨v, [c], lic, rp⟩
    rw [show (PyInfo.mk v [c] lic rp).classifiers = [c] from rfl] at h1
    rw [hfilter] at h1
    rw [h1]
    exact rfl

/-- C7 witness: a single MIT license classifier is returned verbatim. -/
theorem claim_c7_witness :
    strStartsWith "License :: OSI Approved :: MIT License" "License ::" = true ∧
    extract_license
      ⟨"1.0", ["License :: OSI Approved :: MIT License"], none, none⟩ =
      "License :: OSI Approved :: MIT License" :=
  ⟨by decide,
    (claim_c7_amended ⟨"1.0", ["License :: OSI Approved :: MIT License"], none, none⟩).2.2.2
      "License :: OSI Approved :: MIT License" "1.0" none none (by decide)⟩

/-- C8: a registry fetch failure for one dependency is non-fatal: the
step for that dependency appends one line to the error stream and leaves
the table rows and warnings untouched, and the run over a batch
containing it still processes every other dependency: its rows and
warnings equal those of the batch without the failing dependency, while
the error stream gains exactly the one failure line. -/
theorem claim_c8_fetch_failure_nonfatal (fetch : String → String → FetchRes)
    (pre post : List (String × String)) (name spec : String)
    (h : truthy (fetch name spec).err = true) :
    (∀ acc : RunAcc,
       stepDep fetch acc (name, spec) =
         ⟨acc.errors ++ [errorMsg name ((fetch name spec).err.getD "")],
          acc.outdated, acc.warnings⟩)
    ∧ runDeps fetch (pre ++ (name, spec) :: post) =
        ⟨(runDeps fetch pre).errors ++
            errorMsg name ((fetch name spec).err.getD "") ::
              (runDeps fetch post).errors,
         (runDeps fetch pre).outdated ++ (runDeps fetch post).outdated,
         (runDeps fetch pre).warnings ++ (runDeps fetch post).warnings⟩ := by
  have hstep : ∀ acc : RunAcc,
      stepDep fetch acc (name, spec) =
        ⟨acc.errors ++ [errorMsg name ((fetch name spec).err.getD "")],
         acc.outdated, acc.warnings⟩ := by
    intro acc
    rcases acc with ⟨E, O, W⟩
    unfold stepDep
    simp [h]
  refine ⟨hstep, ?_⟩
  show List.foldl (stepDep fetch) ⟨[], [], []⟩ (pre ++ (name, spec) :: post) = _
  rw [List.foldl_append, List.foldl_cons]
  rw [hstep (List.foldl (stepDep fetch) ⟨[], [], []⟩ pre)]
  rw [foldl_stepDep fetch post]
  simp [runDeps, List.append_assoc]

/-- C8 witness: in a batch of three dependencies whose middle fetch
fails, the run reports one error line, no rows and no warnings. -/
theorem claim_c8_witness :
    truthy (fetchW "bad" "==9.9").err = true ∧
    runDeps fetchW [("a", "==1.0"), ("bad", "==9.9"), ("b", "==1.0")] =
      ⟨[errorMsg "bad" "boom"], [], []⟩ :=
  ⟨by decide,
    ((claim_c8_fetch_failure_nonfatal fetchW [("a", "==1.0")] [("b", "==1.0")]
      "bad" "==9.9" (by decide)).2).trans (by decide)⟩

/-- C9: the pinned specifier match tolerates whitespace between the
operator and the version token: every specifier of the form two equal
signs, whitespace, token qualifies as pinned with that token as the
current version, and a successful fetch then returns the extracted
fields. -/
theorem claim_c9_whitespace_tolerated (ws tok : String)
    (hws : ws.data.all Char.isWhitespace = true)
    (hne : tok.data ≠ []) (htok : tok.data.all isPinnedTokenChar = true) :
    pinnedMatch ("==" ++ ws ++ tok) = some tok
    ∧ ∀ info, check_pypi_updates (.success info) ("==" ++ ws ++ tok) =
        ⟨some tok, some info.version, some (extract_license info),
         some (extract_python_requires info), none⟩ := by
  have hp := pinnedMatch_build ws tok hws hne htok
  refine ⟨hp, ?_⟩
  intro info
  unfold check_pypi_updates
  rw [hp]

/-- C9 witness: a space between the operator and the token is
tolerated. -/
theorem claim_c9_witness :
    pinnedMatch ("==" ++ " " ++ "1.2.3") = some "1.2.3" ∧
    pinnedMatch "== 1.2.3" = some "1.2.3" :=
  ⟨(claim_c9_whitespace_tolerated " " "1.2.3" (by decide) (by decide) (by decide)).1,
    by decide⟩

/-- C10: a present but falsy license value is treated as an absent one:
on the pinned backend an empty license field with no license classifiers
yields Unknown, and on the range backend a falsy per-release license
value gives the same result as an absent one, falling through to the
document-level license and then Unknown. -/
theorem claim_c10_falsy_license (info : PyInfo) (a b : Option NpmLicense) :
    (info.classifiers.filter (fun c => strStartsWith c "License ::") = [] →
      truthy info.license = false → extract_license info = "Unknown")
    ∧ (npmLicTruthy a = false → npmLicenseValue a b = npmLicenseValue none b)
    ∧ extract_license ⟨"1.0", [], some "", none⟩ = "Unknown"
    ∧ npmLicenseValue (some (.str "")) (some (.str "ISC")) = "ISC"
    ∧ npmLicenseValue (some (.str "")) none = "Unknown" := by
  refine ⟨?_, ?_, by decide, by decide, by decide⟩
  · intro hf ht
    rw [extract_license_cases, hf]
    rcases hl : info.license with _ | s
    · simp
    · rw [hl] at ht
      have ht2 : s.isEmpty = true := by
        simp only [truthy] at ht
        rcases k : s.isEmpty with _ | _
        · rw [k] at ht
          exact absurd ht (by decide)
        · rfl
      simp [ht2]
  · intro hfa
    unfold npmLicenseValue
    rw [hfa]
    rfl

/-- C10 witness: an empty license object falls through to the document
license the same way an absent one does. -/
theorem claim_c10_witness :
    npmLicTruthy (some (.dict [])) = false ∧
    npmLicenseValue (some (.dict [])) (some (.str "MIT")) =
      npmLicenseValue none (some (.str "MIT")) :=
  ⟨by decide,
    (claim_c10_falsy_license ⟨"1.0", [], none, none⟩ (some (.dict []))
      (some (.str "MIT"))).2.1 (by decide)⟩

end DepCheck
